import Mathlib

/-!
Verification of the edn-sphere streaming tokenizer (`src/lib.rs`).

The Rust source is shallowly embedded: `Chars` iterators become `List Char`
(consuming `next()` becomes taking the head), `i64` counters become `Int`
(the counters only ever grow by one per consumed character, far from any
overflow), `Option<T>` becomes `Option`, and every method is a pure function
threading the mutated receiver explicitly.  Rust's Unicode classifiers
`char::is_alphabetic` / `char::is_alphanumeric` / `char::is_whitespace` are
modelled by `Char.isAlpha` / `Char.isAlphanum` / `Char.isWhitespace`; every
concrete input appearing in the development is ASCII, where the two families
agree.
-/

namespace EdnSphere

/-- The token type of `src/lib.rs` (`enum Token`). -/
inductive Token : Type
  | Nil : Token
  | Boolean : Bool → Token
  | Whitespace : List Char → Token
  | Symbol : List Char → Token
deriving DecidableEq

/-- State of `KeywordTokenParser`: the not-yet-compared tail of the keyword
(`iter: Chars`), the token to emit (`result`), and the alive flag
(`last_state: Option<bool>`). -/
structure KeywordTokenParser : Type where
  iter : List Char
  result : Token
  last_state : Option Bool
deriving DecidableEq

/-- `KeywordTokenParser::new`. -/
def KeywordTokenParser.new (keyword : List Char) (result : Token) : KeywordTokenParser :=
  { iter := keyword, result := result, last_state := none }

/-- `KeywordTokenParser::matches` (lines 42-58): pull the next keyword
character (the iterator advances even on a mismatch), compare it with the
offered character, and fold the comparison into `last_state` with `&&`.
Returns the updated alive flag together with the updated matcher. -/
def KeywordTokenParser.matches (p : KeywordTokenParser) (c : Char) : Bool × KeywordTokenParser :=
  let step : Bool × List Char :=
    match p.iter with
    | [] => (false, [])
    | ch :: rest => (c == ch, rest)
  let new_state : Bool :=
    match p.last_state with
    | some internal_state => internal_state && step.1
    | none => step.1
  (new_state, { iter := step.2, result := p.result, last_state := some new_state })

/-- `KeywordTokenParser::get_token` (lines 60-68): emit the result token
exactly when the alive flag is `Some(true)`. -/
def KeywordTokenParser.get_token (p : KeywordTokenParser) : Option Token :=
  match p.last_state with
  | some true => some p.result
  | _ => none

/-- State of `SymbolParser`: the accepted characters so far (`result`) and
the alive flag (`last_state`). -/
structure SymbolParser : Type where
  result : List Char
  last_state : Option Bool
deriving DecidableEq

/-- `SymbolParser::new`. -/
def SymbolParser.new : SymbolParser := { result := [], last_state := none }

/-- The `first_special_chars` vector of `SymbolParser::is_character_allowed`. -/
def first_special_chars : List Char := ['+', '-', '.']

/-- The `special_chars` vector of `SymbolParser::is_character_allowed`. -/
def special_chars : List Char :=
  ['.', '*', '+', '!', '-', '_', '?', '$', '%', '&', '=', '<', '>', '/']

/-- The `extra_special_chars` vector of `SymbolParser::is_character_allowed`. -/
def extra_special_chars : List Char := ['#', ':']

/-- `SymbolParser::is_character_allowed` (lines 81-99), branch for branch:
empty result; result starting with `/`; exactly one stored character that is
a leading special; result ending in `/`; general continuation.
`rest.getLastD first` is the last element of `first :: rest`, i.e. the
`self.result.last().unwrap()` of the source (the list is non-empty here). -/
def SymbolParser.is_character_allowed (p : SymbolParser) (c : Char) : Bool :=
  match p.result with
  | [] => c.isAlpha || special_chars.contains c
  | first :: rest =>
    if first == '/' then
      false
    else if rest.isEmpty && first_special_chars.contains first then
      c.isAlpha || special_chars.contains c || extra_special_chars.contains c
    else if rest.getLastD first == '/' then
      c.isAlpha || special_chars.contains c
    else
      c.isAlphanum || special_chars.contains c || extra_special_chars.contains c

/-- `SymbolParser::matches` (lines 103-118): push the character when allowed
and fold the verdict into `last_state` with `&&`. -/
def SymbolParser.matches (p : SymbolParser) (c : Char) : Bool × SymbolParser :=
  let allowed := p.is_character_allowed c
  let result' := if allowed then p.result ++ [c] else p.result
  let new_state : Bool :=
    match p.last_state with
    | some internal_state => internal_state && allowed
    | none => allowed
  (new_state, { result := result', last_state := some new_state })

/-- `SymbolParser::get_token` (lines 120-128): emit `Symbol(result)` when the
alive flag is `Some(true)` and the accepted text does not end in `/`.  In the
source `self.result.last().unwrap()` is only reached when the flag is true,
which forces `result` non-empty, so `getLastD '/'` never actually falls back
to its default. -/
def SymbolParser.get_token (p : SymbolParser) : Option Token :=
  match p.last_state with
  | some true =>
    if p.result.getLastD '/' == '/' then none
    else some (Token.Symbol p.result)
  | _ => none

/-- Offer a sequence of characters to a keyword matcher, left to right. -/
def KeywordTokenParser.feed (p : KeywordTokenParser) (cs : List Char) : KeywordTokenParser :=
  cs.foldl (fun q c => (q.matches c).2) p

/-- Offer a sequence of characters to a symbol matcher, left to right. -/
def SymbolParser.feed (p : SymbolParser) (cs : List Char) : SymbolParser :=
  cs.foldl (fun q c => (q.matches c).2) p

/-- State of `struct Parser`: the unread tail of the source (`iterator`),
the lookahead (`current_character`), and the `character` / `line` counters.
The never-read `source` back-reference is omitted. -/
structure Parser : Type where
  remaining : List Char
  current_character : Option Char
  character : Int
  line : Int
deriving DecidableEq

/-- `Parser::is_whitespace` (lines 132-134). -/
def Parser.is_whitespace (ch : Char) : Bool :=
  ch.isWhitespace || ch == ','

/-- `Parser::new` (lines 136-144). -/
def Parser.new (source : List Char) : Parser :=
  { remaining := source, current_character := none, character := 0, line := 1 }

/-- `Parser::next_character` (lines 146-158): pull one character from the
iterator; bump the `character` counter only when one was available; store the
pull as the new lookahead; return it. -/
def Parser.next_character (p : Parser) : Option Char × Parser :=
  match p.remaining with
  | [] => (none, { p with current_character := none })
  | ch :: rest =>
    (some ch,
      { remaining := rest, current_character := some ch,
        character := p.character + 1, line := p.line })

/-- The `while let Some(c) = self.current_character` loop of
`Parser::parse_whitespace` (lines 163-174), with `next_character` inlined so
the recursion is structural on the unread tail: a whitespace lookahead `c`
bumps `line`/`character` on `'\n'`, is appended to the run, and the next
character is pulled (`chr0 + 1` is `next_character`'s counter bump); when the
tail is exhausted the pull yields `None` and the next loop iteration exits,
which is folded into an immediate return here.  A non-whitespace or absent
lookahead ends the loop with the state unchanged. -/
def Parser.parse_whitespace_go :
    List Char → Option Char → List Char → Int → Int → List Char × Parser
  | acc, none, rest, chr, ln =>
    (acc, { remaining := rest, current_character := none, character := chr, line := ln })
  | acc, some c, rest, chr, ln =>
    if Parser.is_whitespace c then
      let ln' := if c == '\n' then ln + 1 else ln
      let chr0 : Int := if c == '\n' then 0 else chr
      match rest with
      | [] =>
        (acc ++ [c],
          { remaining := [], current_character := none, character := chr0, line := ln' })
      | d :: ds => Parser.parse_whitespace_go (acc ++ [c]) (some d) ds (chr0 + 1) ln'
    else
      (acc, { remaining := rest, current_character := some c, character := chr, line := ln })

/-- `Parser::parse_whitespace` (lines 160-181): run the loop from an empty
run, then wrap a non-empty run as `Token::Whitespace`. -/
def Parser.parse_whitespace (p : Parser) : Option Token × Parser :=
  let r := Parser.parse_whitespace_go [] p.current_character p.remaining p.character p.line
  if r.1.isEmpty then (none, r.2) else (some (Token.Whitespace r.1), r.2)

/-- The four candidate matchers built at the top of `Parser::parse_value`
(lines 184-194), in the order they appear in the `value_parsers` vector. -/
structure Matchers : Type where
  nilp : KeywordTokenParser
  truep : KeywordTokenParser
  falsep : KeywordTokenParser
  symp : SymbolParser
deriving DecidableEq

/-- The freshly constructed candidate matchers of `Parser::parse_value`. -/
def Matchers.init : Matchers :=
  { nilp := KeywordTokenParser.new ['n', 'i', 'l'] Token.Nil,
    truep := KeywordTokenParser.new ['t', 'r', 'u', 'e'] (Token.Boolean true),
    falsep := KeywordTokenParser.new ['f', 'a', 'l', 's', 'e'] (Token.Boolean false),
    symp := SymbolParser.new }

/-- The `for p in value_parsers.iter_mut() { p.matches(&ch); }` body: offer
one character to every candidate. -/
def Matchers.step (m : Matchers) (c : Char) : Matchers :=
  { nilp := (m.nilp.matches c).2,
    truep := (m.truep.matches c).2,
    falsep := (m.falsep.matches c).2,
    symp := (m.symp.matches c).2 }

/-- The `value_parsers.iter().map(|p| p.get_token())` list of
`Parser::parse_value`, in vector order. -/
def Matchers.tokens (m : Matchers) : List (Option Token) :=
  [m.nilp.get_token, m.truep.get_token, m.falsep.get_token, m.symp.get_token]

/-- The `while let Some(ch) = self.next_character()` loop of
`Parser::parse_value` (lines 196-204), with `next_character` inlined so the
recursion is structural on the unread tail: each pulled character is offered
to every matcher unless it is whitespace, in which case the loop breaks with
that character consumed as the lookahead; exhaustion leaves the counters
untouched and clears the lookahead. -/
def Parser.parse_value_go :
    Matchers → List Char → Int → Int → Matchers × Parser
  | m, [], chr, ln =>
    (m, { remaining := [], current_character := none, character := chr, line := ln })
  | m, ch :: rest, chr, ln =>
    if Parser.is_whitespace ch then
      (m, { remaining := rest, current_character := some ch,
            character := chr + 1, line := ln })
    else
      Parser.parse_value_go (m.step ch) rest (chr + 1) ln

/-- `Parser::parse_value` (lines 183-216): scan the atom, consume trailing
whitespace (its token is discarded), and return the first `Some` among the
candidates' tokens in vector order — `List.findSome? id` is the
`for t in tokens { if let Some(_) = t { return t } }` loop. -/
def Parser.parse_value (p : Parser) : Option Token × Parser :=
  let r := Parser.parse_value_go Matchers.init p.remaining p.character p.line
  let r2 := r.2.parse_whitespace
  (r.1.tokens.findSome? id, r2.2)

/-! Helper lemmas about the keyword matcher. -/

theorem KeywordTokenParser.feed_nil (p : KeywordTokenParser) : p.feed [] = p := rfl

theorem KeywordTokenParser.feed_cons (p : KeywordTokenParser) (c : Char) (cs : List Char) :
    p.feed (c :: cs) = ((p.matches c).2).feed cs := rfl

theorem KeywordTokenParser.matches_last_state (p : KeywordTokenParser) (c : Char) :
    ((p.matches c).2).last_state = some ((p.matches c).1) := rfl

theorem KeywordTokenParser.matches_dead (p : KeywordTokenParser) (c : Char)
    (h : p.last_state = some false) : (p.matches c).1 = false := by
  simp [KeywordTokenParser.matches, h]

theorem KeywordTokenParser.feed_dead (cs : List Char) :
    ∀ p : KeywordTokenParser, p.last_state = some false →
      (p.feed cs).last_state = some false := by
  induction cs with
  | nil => intro p h; simpa [KeywordTokenParser.feed_nil] using h
  | cons c cs ih =>
    intro p h
    rw [KeywordTokenParser.feed_cons]
    apply ih
    rw [KeywordTokenParser.matches_last_state, KeywordTokenParser.matches_dead p c h]

theorem KeywordTokenParser.get_token_dead (p : KeywordTokenParser)
    (h : p.last_state = some false) : p.get_token = none := by
  simp [KeywordTokenParser.get_token, h]

theorem KeywordTokenParser.feed_result (cs : List Char) :
    ∀ p : KeywordTokenParser, (p.feed cs).result = p.result := by
  induction cs with
  | nil => intro p; rfl
  | cons c cs ih => intro p; rw [KeywordTokenParser.feed_cons, ih]; rfl

theorem KeywordTokenParser.feed_alive (cs : List Char) :
    ∀ p : KeywordTokenParser, p.last_state = some true →
      (p.feed cs).last_state = some (cs.isPrefixOf p.iter) := by
  induction cs with
  | nil => intro p h; simpa [KeywordTokenParser.feed_nil, List.isPrefixOf] using h
  | cons c cs ih =>
    intro p h
    rw [KeywordTokenParser.feed_cons]
    rcases hiter : p.iter with _ | ⟨k, ks⟩
    · have hdead : ((p.matches c).2).last_state = some false := by
        simp [KeywordTokenParser.matches, hiter, h]
      rw [KeywordTokenParser.feed_dead cs _ hdead]
      simp [List.isPrefixOf]
    · by_cases hck : (c == k) = true
      · have hq : (p.matches c).2
            = { iter := ks, result := p.result, last_state := some true } := by
          simp [KeywordTokenParser.matches, hiter, h, hck]
        rw [hq, ih _ rfl]
        simp [List.isPrefixOf, hck]
      · have hdead : ((p.matches c).2).last_state = some false := by
          simp [KeywordTokenParser.matches, hiter, h, hck]
        rw [KeywordTokenParser.feed_dead cs _ hdead]
        simp [List.isPrefixOf, hck]

/-! Helper lemmas about the symbol matcher. -/

theorem SymbolParser.sym_feed_nil (p : SymbolParser) : p.feed [] = p := rfl

theorem SymbolParser.sym_feed_cons (p : SymbolParser) (c : Char) (cs : List Char) :
    p.feed (c :: cs) = ((p.matches c).2).feed cs := rfl

theorem SymbolParser.sym_matches_last_state (p : SymbolParser) (c : Char) :
    ((p.matches c).2).last_state = some ((p.matches c).1) := rfl

theorem SymbolParser.sym_matches_dead (p : SymbolParser) (c : Char)
    (h : p.last_state = some false) : (p.matches c).1 = false := by
  simp [SymbolParser.matches, h]

theorem SymbolParser.sym_feed_dead (cs : List Char) :
    ∀ p : SymbolParser, p.last_state = some false →
      (p.feed cs).last_state = some false := by
  induction cs with
  | nil => intro p h; simpa [SymbolParser.sym_feed_nil] using h
  | cons c cs ih =>
    intro p h
    rw [SymbolParser.sym_feed_cons]
    apply ih
    rw [SymbolParser.sym_matches_last_state, SymbolParser.sym_matches_dead p c h]

theorem SymbolParser.sym_get_token_dead (p : SymbolParser)
    (h : p.last_state = some false) : p.get_token = none := by
  simp [SymbolParser.get_token, h]

theorem SymbolParser.matches_alive_allowed (p : SymbolParser) (c : Char)
    (h : (p.matches c).1 = true) : p.is_character_allowed c = true := by
  rcases hl : p.last_state with _ | b
  · simp [SymbolParser.matches, hl] at h
    exact h
  · rcases b
    · simp [SymbolParser.matches, hl] at h
    · simp [SymbolParser.matches, hl] at h
      exact h

theorem SymbolParser.matches_result_allowed (p : SymbolParser) (c : Char)
    (h : p.is_character_allowed c = true) :
    ((p.matches c).2).result = p.result ++ [c] := by
  simp [SymbolParser.matches, h]

theorem SymbolParser.feed_alive_result (cs : List Char) :
    ∀ p : SymbolParser, (p.feed cs).last_state = some true →
      (p.feed cs).result = p.result ++ cs := by
  induction cs with
  | nil => intro p _; simp [SymbolParser.sym_feed_nil]
  | cons c cs ih =>
    intro p h
    rw [SymbolParser.sym_feed_cons] at h ⊢
    have hb : (p.matches c).1 = true := by
      by_contra hb
      have hb' : (p.matches c).1 = false := Bool.eq_false_iff.mpr hb
      have hdead := SymbolParser.sym_feed_dead cs (p.matches c).2
        (by rw [SymbolParser.sym_matches_last_state, hb'])
      rw [hdead] at h
      simp at h
    rw [ih _ h,
      SymbolParser.matches_result_allowed p c (SymbolParser.matches_alive_allowed p c hb)]
    simp

/-- Second-character acceptance after a single stored leading-special
character: the `len == 1 && first_special` branch of
`is_character_allowed`. -/
theorem second_char_allowed (f c : Char) (h1 : (f == '/') = false)
    (h2 : first_special_chars.contains f = true) :
    (({ result := [f], last_state := some true } : SymbolParser).is_character_allowed c
        = true) ↔
      (c.isAlpha = true ∨ c ∈ special_chars ∨ c ∈ extra_special_chars) := by
  have h2' : f ∈ first_special_chars := by simpa using h2
  simp [SymbolParser.is_character_allowed, h1, h2', or_assoc]

/-- C1, counterexample: offering only the strict prefix `'n'`, `'i'` of the
keyword `nil` already makes `get_token` report a successful `Token::Nil`,
although the claim requires success only on an exact, fully-consumed match of
the whole keyword text. -/
theorem C1_counterexample :
    ((KeywordTokenParser.new ['n', 'i', 'l'] Token.Nil).feed ['n', 'i']).get_token
      = some Token.Nil := by decide

/-- C1, amended: a keyword candidate reports a successful token via
`get_token` exactly when the characters offered to it form a *non-empty,
case-sensitive, character-for-character prefix* of the keyword text (the full
keyword included); full consumption of the keyword is not required, and any
mismatching, over-long, or empty offering yields no token. -/
theorem C1_amended (kw cs : List Char) (tok : Token) :
    ((KeywordTokenParser.new kw tok).feed cs).get_token =
      if cs ≠ [] ∧ cs.isPrefixOf kw = true then some tok else none := by
  rcases cs with _ | ⟨c, cs⟩
  · simp [KeywordTokenParser.feed_nil, KeywordTokenParser.new, KeywordTokenParser.get_token]
  · rw [KeywordTokenParser.feed_cons]
    rcases kw with _ | ⟨k, ks⟩
    · have hdead : (((KeywordTokenParser.new [] tok).matches c).2).last_state = some false := by
        simp [KeywordTokenParser.matches, KeywordTokenParser.new]
      rw [KeywordTokenParser.get_token_dead _ (KeywordTokenParser.feed_dead cs _ hdead)]
      simp [List.isPrefixOf]
    · by_cases hck : (c == k) = true
      · have hq : ((KeywordTokenParser.new (k :: ks) tok).matches c).2
            = { iter := ks, result := tok, last_state := some true } := by
          simp [KeywordTokenParser.matches, KeywordTokenParser.new, hck]
        rw [hq]
        have halive := KeywordTokenParser.feed_alive cs
          { iter := ks, result := tok, last_state := some true } rfl
        have hres := KeywordTokenParser.feed_result cs
          { iter := ks, result := tok, last_state := some true }
        by_cases hpre : cs.isPrefixOf ks = true
        · rw [hpre] at halive
          simp [KeywordTokenParser.get_token, halive, hres, List.isPrefixOf, hck, hpre]
        · have hb : cs.isPrefixOf ks = false := Bool.eq_false_iff.mpr hpre
          rw [hb] at halive
          rw [KeywordTokenParser.get_token_dead _ halive]
          simp [List.isPrefixOf, hb]
      · have hdead : (((KeywordTokenParser.new (k :: ks) tok).matches c).2).last_state
            = some false := by
          simp [KeywordTokenParser.matches, KeywordTokenParser.new, hck]
        rw [KeywordTokenParser.get_token_dead _ (KeywordTokenParser.feed_dead cs _ hdead)]
        simp [List.isPrefixOf, hck]

/-- C2, counterexample: the claim asserts that `'*'`, `'!'`, `'<'` are
rejected as a symbol's first character, yet `is_character_allowed` accepts
all three on an empty accumulator (the first-character branch tests the
general `special_chars` list, not the three leading specials). -/
theorem C2_counterexample :
    SymbolParser.new.is_character_allowed '*' = true
    ∧ SymbolParser.new.is_character_allowed '!' = true
    ∧ SymbolParser.new.is_character_allowed '<' = true := by decide

/-- C2, amended: the symbol recognizer accepts a character `c` as the first
character if and only if `c` is alphabetic or one of the fourteen general
special characters `. * + ! - _ ? $ % & = < > /` (the `first_special_chars`
list `+ - .` plays no role in the first-character test; it is only consulted
for the second character). -/
theorem C2_amended (c : Char) :
    SymbolParser.new.is_character_allowed c = true ↔
      (c.isAlpha = true ∨
        c ∈ ['.', '*', '+', '!', '-', '_', '?', '$', '%', '&', '=', '<', '>', '/']) := by
  simp [SymbolParser.new, SymbolParser.is_character_allowed, special_chars]

/-- C10: once the character source is exhausted (`remaining = []`),
`next_character` returns `none`, sets the lookahead to `none`, leaves both
counters unchanged, and a repeated call behaves identically on the resulting
state; the model is a total function, so no panic is possible. -/
theorem C10_exhausted (p : Parser) (h : p.remaining = []) :
    p.next_character = (none, { p with current_character := none })
    ∧ (p.next_character).2.character = p.character
    ∧ (p.next_character).2.line = p.line
    ∧ (p.next_character).2.remaining = []
    ∧ ((p.next_character).2).next_character = (none, (p.next_character).2) := by
  simp [Parser.next_character, h]

/-- C10, witness at the empty source. -/
theorem C10_witness :
    (Parser.new []).next_character = (none, { Parser.new [] with current_character := none })
    ∧ ((Parser.new []).next_character).2.character = (Parser.new []).character
    ∧ ((Parser.new []).next_character).2.line = (Parser.new []).line
    ∧ ((Parser.new []).next_character).2.remaining = []
    ∧ (((Parser.new []).next_character).2).next_character
        = (none, ((Parser.new []).next_character).2) :=
  C10_exhausted (Parser.new []) rfl

/-- C4: whenever the accepted characters of a symbol scan end in `/`, the
recognizer yields no successful symbol token at `get_token` time, even when
every individual character passed the per-character predicate; in particular
the inputs `f123/123` and `+#:123/#` yield no successful token from
`parse_value`. -/
theorem C4_trailing_slash (cs : List Char)
    (h : ((SymbolParser.new.feed cs).result).getLast? = some '/') :
    (SymbolParser.new.feed cs).get_token = none
    ∧ ((Parser.new ['f', '1', '2', '3', '/', '1', '2', '3']).parse_value).1 = none
    ∧ ((Parser.new ['+', '#', ':', '1', '2', '3', '/', '#']).parse_value).1 = none := by
  refine ⟨?_, by decide, by decide⟩
  rcases hl : (SymbolParser.new.feed cs).last_state with _ | b
  · simp [SymbolParser.get_token, hl]
  · rcases b
    · simp [SymbolParser.get_token, hl]
    · simp [SymbolParser.get_token, hl, List.getLastD_eq_getLast?, h]

/-- C4, witness: the accepted text `a/` ends in `/`; `get_token` yields no
token for it, and the two concrete inputs yield no token from
`parse_value`. -/
theorem C4_witness :
    (SymbolParser.new.feed ['a', '/']).get_token = none
    ∧ ((Parser.new ['f', '1', '2', '3', '/', '1', '2', '3']).parse_value).1 = none
    ∧ ((Parser.new ['+', '#', ':', '1', '2', '3', '/', '#']).parse_value).1 = none :=
  C4_trailing_slash ['a', '/'] (by decide)

/-- C5: after a symbol has accepted exactly one of the leading special
characters `+`, `-`, `.`, the second character is accepted if and only if it
is alphabetic, a general special character, or an extended special character;
consequently `+123` fails to classify and `parse_value` returns no token for
it. -/
theorem C5_second_character (f c : Char) (hf : f ∈ first_special_chars) :
    ((SymbolParser.new.feed [f]).is_character_allowed c = true ↔
      (c.isAlpha = true ∨ c ∈ special_chars ∨ c ∈ extra_special_chars))
    ∧ ((Parser.new ['+', '1', '2', '3']).parse_value).1 = none := by
  refine ⟨?_, by decide⟩
  have hstate : SymbolParser.new.feed [f] = { result := [f], last_state := some true } := by
    have hf' : f = '+' ∨ f = '-' ∨ f = '.' := by simpa [first_special_chars] using hf
    rcases hf' with hf' | hf' | hf' <;> subst hf' <;> decide
  rw [hstate]
  apply second_char_allowed
  · have hf' : f = '+' ∨ f = '-' ∨ f = '.' := by simpa [first_special_chars] using hf
    rcases hf' with hf' | hf' | hf' <;> subst hf' <;> decide
  · have hf' : f = '+' ∨ f = '-' ∨ f = '.' := by simpa [first_special_chars] using hf
    rcases hf' with hf' | hf' | hf' <;> subst hf' <;> decide

/-- C5, witness at `f := '+'`, `c := 'a'`. -/
theorem C5_witness :
    ((SymbolParser.new.feed ['+']).is_character_allowed 'a' = true ↔
      ('a'.isAlpha = true ∨ 'a' ∈ special_chars ∨ 'a' ∈ extra_special_chars))
    ∧ ((Parser.new ['+', '1', '2', '3']).parse_value).1 = none :=
  C5_second_character '+' 'a' (by decide)

/-- C6: for both candidate matcher kinds, the alive state is monotonic: once
`matches` has returned `false` for some character, every later `matches`
call returns `false` and `get_token` returns `none`, whatever characters
follow. -/
theorem C6_monotonic (p : KeywordTokenParser) (q : SymbolParser) (c d : Char) (cs : List Char)
    (hp : (p.matches c).1 = false) (hq : (q.matches c).1 = false) :
    ((((p.matches c).2).feed cs).matches d).1 = false
    ∧ (((p.matches c).2).feed cs).get_token = none
    ∧ ((((q.matches c).2).feed cs).matches d).1 = false
    ∧ (((q.matches c).2).feed cs).get_token = none := by
  have h1 : ((p.matches c).2).last_state = some false := by
    rw [KeywordTokenParser.matches_last_state, hp]
  have h2 : ((q.matches c).2).last_state = some false := by
    rw [SymbolParser.sym_matches_last_state, hq]
  have h3 := KeywordTokenParser.feed_dead cs _ h1
  have h4 := SymbolParser.sym_feed_dead cs _ h2
  exact ⟨KeywordTokenParser.matches_dead _ d h3, KeywordTokenParser.get_token_dead _ h3,
    SymbolParser.sym_matches_dead _ d h4, SymbolParser.sym_get_token_dead _ h4⟩

/-- C6, witness: `'1'` kills both the `nil` keyword candidate and the symbol
candidate; after further characters both still answer `false` / `none`. -/
theorem C6_witness :
    (((((KeywordTokenParser.new ['n', 'i', 'l'] Token.Nil).matches '1').2).feed
        ['i']).matches 'n').1 = false
    ∧ ((((KeywordTokenParser.new ['n', 'i', 'l'] Token.Nil).matches '1').2).feed
        ['i']).get_token = none
    ∧ ((((SymbolParser.new.matches '1').2).feed ['i']).matches 'n').1 = false
    ∧ (((SymbolParser.new.matches '1').2).feed ['i']).get_token = none :=
  C6_monotonic (KeywordTokenParser.new ['n', 'i', 'l'] Token.Nil) SymbolParser.new '1' 'n'
    ['i'] (by decide) (by decide)

/-- C9: classification is idempotent: whenever scanning `cs` through a fresh
symbol recognizer yields `Symbol t`, re-scanning the emitted text `t` through
a fresh recognizer yields the same token `Symbol t`. -/
theorem C9_idempotent (cs t : List Char)
    (h : (SymbolParser.new.feed cs).get_token = some (Token.Symbol t)) :
    (SymbolParser.new.feed t).get_token = some (Token.Symbol t) := by
  have halive : (SymbolParser.new.feed cs).last_state = some true := by
    rcases hl : (SymbolParser.new.feed cs).last_state with _ | b
    · simp [SymbolParser.get_token, hl] at h
    · rcases b
      · simp [SymbolParser.get_token, hl] at h
      · rfl
  have hres : (SymbolParser.new.feed cs).result = cs := by
    simpa [SymbolParser.new] using SymbolParser.feed_alive_result cs SymbolParser.new halive
  have ht : t = cs := by
    have h' := h
    simp only [SymbolParser.get_token, halive] at h'
    split at h'
    · exact absurd h' (by simp)
    · rw [hres] at h'
      exact (Token.Symbol.inj (Option.some.inj h')).symm
  subst ht
  exact h

/-- C9, witness at the accepted symbol text `ab`. -/
theorem C9_witness :
    (SymbolParser.new.feed ['a', 'b']).get_token = some (Token.Symbol ['a', 'b']) :=
  C9_idempotent ['a', 'b'] ['a', 'b'] (by decide)

/-! Helper lemmas about the `parse_value` scan loop. -/

theorem parse_value_go_nil (m : Matchers) (chr ln : Int) :
    Parser.parse_value_go m [] chr ln
      = (m, { remaining := [], current_character := none, character := chr, line := ln }) := rfl

theorem parse_value_go_append_nonws (cs : List Char) :
    ∀ (m : Matchers) (ds : List Char) (chr ln : Int),
      (∀ c ∈ cs, Parser.is_whitespace c = false) →
      Parser.parse_value_go m (cs ++ ds) chr ln
        = Parser.parse_value_go (cs.foldl Matchers.step m) ds (chr + (cs.length : Int)) ln := by
  induction cs with
  | nil => intro m ds chr ln _; simp
  | cons c cs ih =>
    intro m ds chr ln h
    have hc : Parser.is_whitespace c = false := h c (by simp)
    have hstep : Parser.parse_value_go m (c :: (cs ++ ds)) chr ln
        = Parser.parse_value_go (m.step c) (cs ++ ds) (chr + 1) ln := by
      simp [Parser.parse_value_go, hc]
    rw [List.cons_append, hstep, ih (m.step c) ds (chr + 1) ln (fun d hd => h d (by simp [hd]))]
    have harith : chr + 1 + (cs.length : Int) = chr + ((c :: cs).length : Int) := by
      simp only [List.length_cons]
      push_cast
      ring
    rw [harith]
    rfl

/-- C3: for an input that is exactly `nil`, `true`, or `false` followed by
end-of-stream or a whitespace character, a single `parse_value` call returns
exactly the corresponding scalar token.  The second conjunct shows that the
generic symbol candidate accepts the identical consumed text as well, so the
returned token is the keyword candidate's by the vector-order precedence in
`parse_value`. -/
theorem C3_keyword_scalar (kw rest : List Char) (tok : Token)
    (hkw : (kw = ['n', 'i', 'l'] ∧ tok = Token.Nil)
      ∨ (kw = ['t', 'r', 'u', 'e'] ∧ tok = Token.Boolean true)
      ∨ (kw = ['f', 'a', 'l', 's', 'e'] ∧ tok = Token.Boolean false))
    (hrest : rest = [] ∨ ∃ c rs, rest = c :: rs ∧ Parser.is_whitespace c = true) :
    ((Parser.new (kw ++ rest)).parse_value).1 = some tok
    ∧ (SymbolParser.new.feed kw).get_token = some (Token.Symbol kw) := by
  rcases hkw with ⟨hk, ht⟩ | ⟨hk, ht⟩ | ⟨hk, ht⟩ <;> subst hk <;> subst ht <;>
    refine ⟨?_, by decide⟩ <;>
    rcases hrest with hr | ⟨c, rs, hr, hws⟩ <;> subst hr
  · decide
  · simp only [Parser.parse_value, Parser.new]
    rw [parse_value_go_append_nonws _ _ _ _ _ (by decide), Parser.parse_value_go, if_pos hws]
    dsimp only
    decide
  · decide
  · simp only [Parser.parse_value, Parser.new]
    rw [parse_value_go_append_nonws _ _ _ _ _ (by decide), Parser.parse_value_go, if_pos hws]
    dsimp only
    decide
  · decide
  · simp only [Parser.parse_value, Parser.new]
    rw [parse_value_go_append_nonws _ _ _ _ _ (by decide), Parser.parse_value_go, if_pos hws]
    dsimp only
    decide

/-- C3, witness at the input `nil` followed by one space. -/
theorem C3_witness :
    ((Parser.new (['n', 'i', 'l'] ++ [' '])).parse_value).1 = some Token.Nil
    ∧ (SymbolParser.new.feed ['n', 'i', 'l']).get_token
        = some (Token.Symbol ['n', 'i', 'l']) :=
  C3_keyword_scalar ['n', 'i', 'l'] [' '] Token.Nil (Or.inl ⟨rfl, rfl⟩)
    (Or.inr ⟨' ', [], rfl, by decide⟩)

/-- C7, counterexample: on input `+123` the symbol predicate already fails at
the second offered character (`last_state` drops to `Some(false)` after
`'+','1'`), yet `parse_value` goes on consuming: afterwards the character
counter reads 4 and the whole input has been consumed, contradicting the
claim that the scan stops consuming as soon as a character fails the symbol
predicate. -/
theorem C7_counterexample :
    (SymbolParser.new.feed ['+']).last_state = some true
    ∧ (SymbolParser.new.feed ['+', '1']).last_state = some false
    ∧ ((Parser.new ['+', '1', '2', '3']).parse_value).2.character = 4
    ∧ ((Parser.new ['+', '1', '2', '3']).parse_value).2.remaining = [] := by decide

/-- C7, amended: the scan loop of `parse_value` stops consuming only at
whitespace or end of stream; a character failing the symbol predicate does
not stop consumption.  In particular, on an input containing no whitespace
the loop consumes every character, and the parser's character counter
afterwards equals the input length. -/
theorem C7_amended (cs : List Char) (h : ∀ c ∈ cs, Parser.is_whitespace c = false) :
    ((Parser.new cs).parse_value).2.character = (cs.length : Int)
    ∧ ((Parser.new cs).parse_value).2.remaining = [] := by
  have hgo : Parser.parse_value_go Matchers.init cs 0 1
      = (cs.foldl Matchers.step Matchers.init,
         { remaining := [], current_character := none,
           character := 0 + (cs.length : Int), line := 1 }) := by
    have hx := parse_value_go_append_nonws cs Matchers.init [] 0 1 h
    simpa [parse_value_go_nil] using hx
  refine ⟨?_, ?_⟩ <;>
    simp [Parser.parse_value, Parser.new, hgo, Parser.parse_whitespace,
      Parser.parse_whitespace_go]

/-- C7, witness at `+123`. -/
theorem C7_witness :
    ((Parser.new ['+', '1', '2', '3']).parse_value).2.character
        = ((['+', '1', '2', '3'] : List Char).length : Int)
    ∧ ((Parser.new ['+', '1', '2', '3']).parse_value).2.remaining = [] :=
  C7_amended ['+', '1', '2', '3'] (by decide)

/-! Helper lemmas about the whitespace loop. -/

/-- Number of newline characters in the whitespace token returned by
`parse_whitespace` (zero when no run was consumed). -/
def newline_count : Option Token → Nat
  | some (Token.Whitespace ws) => ws.count '\n'
  | _ => 0

theorem parse_whitespace_go_line (rest : List Char) :
    ∀ (acc : List Char) (cur : Option Char) (chr ln : Int), ∃ d,
      (Parser.parse_whitespace_go acc cur rest chr ln).1 = acc ++ d
      ∧ ((Parser.parse_whitespace_go acc cur rest chr ln).2).line
          = ln + ((d.count '\n' : Nat) : Int) := by
  induction rest with
  | nil =>
    intro acc cur chr ln
    rcases cur with _ | c
    · exact ⟨[], by simp [Parser.parse_whitespace_go]⟩
    · by_cases hws : Parser.is_whitespace c = true
      · refine ⟨[c], ?_, ?_⟩
        · simp [Parser.parse_whitespace_go, hws]
        · by_cases hnl : (c == '\n') = true
          · simp [Parser.parse_whitespace_go, hws, hnl, List.count_cons]
          · simp [Parser.parse_whitespace_go, hws, hnl, List.count_cons]
      · exact ⟨[], by simp [Parser.parse_whitespace_go, hws]⟩
  | cons e es ih =>
    intro acc cur chr ln
    rcases cur with _ | c
    · exact ⟨[], by simp [Parser.parse_whitespace_go]⟩
    · by_cases hws : Parser.is_whitespace c = true
      · obtain ⟨d, hd1, hd2⟩ := ih (acc ++ [c]) (some e)
          ((if c == '\n' then (0 : Int) else chr) + 1)
          (if c == '\n' then ln + 1 else ln)
        have hstep : Parser.parse_whitespace_go acc (some c) (e :: es) chr ln
            = Parser.parse_whitespace_go (acc ++ [c]) (some e) es
                ((if c == '\n' then (0 : Int) else chr) + 1)
                (if c == '\n' then ln + 1 else ln) := by
          rw [Parser.parse_whitespace_go, if_pos hws]
        refine ⟨c :: d, ?_, ?_⟩
        · rw [hstep, hd1]
          simp
        · rw [hstep, hd2]
          by_cases hnl : (c == '\n') = true
          · simp only [hnl, if_pos, List.count_cons]
            push_cast
            ring
          · simp only [hnl, if_neg, List.count_cons]
            simp [hnl]
      · refine ⟨[], ?_⟩
        rw [Parser.parse_whitespace_go, if_neg hws]
        simp

/-- C8, counterexample: for the run `" \n"` consumed from a cursor already
positioned at its first character, the run ends at the newline and the
parser afterwards reports column 0, not the column 1 demanded by the claim's
"resets the column counter to 1 at each newline" rule (the line counter did
advance to 2, so the newline was consumed). -/
theorem C8_counterexample :
    (((Parser.new [' ', '\n']).next_character).2.parse_whitespace).2.line = 2
    ∧ (((Parser.new [' ', '\n']).next_character).2.parse_whitespace).2.character = 0 := by
  decide

/-- C8, amended: consuming a whitespace run advances the line counter by the
number of newline characters in the consumed run; a newline resets the column
counter to 0 (each consumed character then adds 1, so the first character
after a newline sits at column 1); for the input `" \n "` consumed from a
cursor already positioned at its first character the parser reports line 2,
column 1. -/
theorem C8_amended (p : Parser) :
    ((p.parse_whitespace).2.line
      = p.line + ((newline_count (p.parse_whitespace).1 : Nat) : Int))
    ∧ (((Parser.new [' ', '\n', ' ']).next_character).2.parse_whitespace).2.line = 2
    ∧ (((Parser.new [' ', '\n', ' ']).next_character).2.parse_whitespace).2.character = 1 := by
  refine ⟨?_, by decide, by decide⟩
  obtain ⟨d, hd1, hd2⟩ :=
    parse_whitespace_go_line p.remaining [] p.current_character p.character p.line
  simp only [List.nil_append] at hd1
  simp only [Parser.parse_whitespace]
  by_cases he : (Parser.parse_whitespace_go [] p.current_character p.remaining
      p.character p.line).1.isEmpty = true
  · have hd0 : d = [] := by
      rw [hd1] at he
      simpa using he
    simp [he, newline_count, hd2, hd0]
  · have hdne : ¬ d = [] := by
      rw [hd1] at he
      simpa using he
    simp [he, hd1, hdne, newline_count, hd2]

end EdnSphere
